import Mathlib

/-!
Shallow embedding of the Session & Conversation State Manager of the
claudegram repository: the `SessionHistory` store (src/unnamed/part_001),
the `SessionManager` live cache and the `resolveWorkingDirectory` path
resolver (src/src/claude/session-manager.ts).

Modelling conventions:
* `ChatId` is `Nat` (the spec fixes it to a positive integer; the JS type is
  `number`).
* Timestamps (`new Date().toISOString()`) are opaque `String`s supplied as an
  explicit `now` parameter to every mutating operation; a `Session`'s `Date`
  fields are modelled by the same ISO strings (`new Date(s)` on a stored ISO
  string is modelled as `s` itself).
* The filesystem consulted by the path resolver (`fs.existsSync`) is modelled
  as the list of existing paths; the current home directory is an explicit
  `String` parameter.
* JS objects keyed by numbers (`Record<number, ...>`, `Map<number, ...>`) are
  modelled as association lists `List (Nat × _)` with unique keys; key
  enumeration order of JS objects is not modelled (no claim depends on it).
* Disk persistence (`JSON.stringify` / `JSON.parse` + zod validation +
  `parseInt` key conversion) is modelled by `saveFile` / `loadFile` below:
  string values round-trip through JSON unchanged, an absent optional field
  stays absent (`JSON.stringify` omits `undefined` properties), and numeric
  keys are rendered in decimal and re-parsed with a decimal parser that
  models `parseInt(key, 10)` on the non-negative keys the store produces.
-/

namespace Claudegram

/-- Durable history record (zod schema `sessionHistoryEntrySchema`). -/
structure SessionHistoryEntry where
  conversationId : String
  claudeSessionId : Option String
  projectPath : String
  projectName : String
  lastMessagePreview : String
  createdAt : String
  lastActivity : String
deriving DecidableEq, Repr

/-- Live in-memory session (interface `Session` in session-manager.ts). -/
structure Session where
  conversationId : String
  claudeSessionId : Option String
  workingDirectory : String
  createdAt : String
  lastActivity : String
deriving DecidableEq, Repr

/-- In-memory history mapping `chatId -> entries` (`SessionHistoryData.sessions`). -/
abbrev HistoryState := List (Nat × List SessionHistoryEntry)

/-! ### Association-list primitives modelling JS keyed collections -/

/-- Lookup `obj[chatId]` in a numeric-keyed JS object / Map. -/
def assocFind {α : Type} (l : List (Nat × α)) (c : Nat) : Option α :=
  (l.find? (fun p => p.1 == c)).map (fun p => p.2)

/-- `chatId in obj`. -/
def assocHas {α : Type} (l : List (Nat × α)) (c : Nat) : Bool :=
  l.any (fun p => p.1 == c)

/-- Assignment `obj[chatId] = v`: replaces in place, or appends a new key. -/
def assocSet {α : Type} (l : List (Nat × α)) (c : Nat) (a : α) : List (Nat × α) :=
  if assocHas l c then l.map (fun p => if p.1 == c then (c, a) else p)
  else l ++ [(c, a)]

/-- `delete obj[chatId]`. -/
def assocDelete {α : Type} (l : List (Nat × α)) (c : Nat) : List (Nat × α) :=
  l.filter (fun p => !(p.1 == c))

/-- The key set of a keyed collection. -/
def keys {α : Type} (l : List (Nat × α)) : List Nat :=
  l.map (fun p => p.1)

/-! ### Small string/path helpers used by the source -/

/-- Node `path.basename` (POSIX): drop trailing separators, then take the
final path segment. -/
def basename (p : String) : String :=
  let cs := p.toList
  let trimmed := (cs.reverse.dropWhile (fun ch => ch == '/')).reverse
  String.mk ((trimmed.reverse.takeWhile (fun ch => !(ch == '/'))).reverse)

/-- JS `s.substring(0, n)`. -/
def substringTo (s : String) (n : Nat) : String :=
  String.mk (s.toList.take n)

def MAX_HISTORY_PER_CHAT : Nat := 20

/-! ### SessionHistory operations (src/unnamed/part_001) -/

/-- `this.data.sessions[chatId] || []`. -/
def getChat (st : HistoryState) (c : Nat) : List SessionHistoryEntry :=
  (assocFind st c).getD []

/-- Body of `SessionHistory.saveSession` acting on one chat's entry list. -/
def saveSessionChat (now conversationId projectPath lastMessagePreview : String)
    (claudeSessionId : Option String) (history : List SessionHistoryEntry) :
    List SessionHistoryEntry :=
  let projectName := basename projectPath
  let existingIdx := history.findIdx? (fun e => e.conversationId == conversationId)
  let existingEntry := existingIdx.bind (fun i => history.get? i)
  let entry : SessionHistoryEntry :=
    { conversationId := conversationId
      claudeSessionId := claudeSessionId <|> (existingEntry.bind (fun e => e.claudeSessionId))
      projectPath := projectPath
      projectName := projectName
      lastMessagePreview := substringTo lastMessagePreview 100
      createdAt := match existingEntry with
        | some e => e.createdAt
        | none => now
      lastActivity := now }
  let updated := match existingIdx with
    | some i => history.set i entry
    | none => entry :: history
  if updated.length > MAX_HISTORY_PER_CHAT then updated.take MAX_HISTORY_PER_CHAT
  else updated

/-- The updated/inserted entry that `saveSession` writes (the record literal
`entry` in the source, as a function of the looked-up existing entry). -/
def mkEntry (now cid pp pre : String) (csid : Option String)
    (existingEntry : Option SessionHistoryEntry) : SessionHistoryEntry :=
  { conversationId := cid
    claudeSessionId := csid <|> (existingEntry.bind (fun e => e.claudeSessionId))
    projectPath := pp
    projectName := basename pp
    lastMessagePreview := substringTo pre 100
    createdAt := match existingEntry with
      | some e => e.createdAt
      | none => now
    lastActivity := now }

/-- `SessionHistory.saveSession` (the on-disk flush is modelled separately by
`saveFile`). -/
def saveSession (now : String) (st : HistoryState) (chatId : Nat)
    (conversationId projectPath lastMessagePreview : String)
    (claudeSessionId : Option String) : HistoryState :=
  assocSet st chatId
    (saveSessionChat now conversationId projectPath lastMessagePreview claudeSessionId
      (getChat st chatId))

/-- `SessionHistory.getHistory`. -/
def getHistory (st : HistoryState) (chatId : Nat) (limit : Nat := 5) :
    List SessionHistoryEntry :=
  (getChat st chatId).take limit

/-- `SessionHistory.getLastSession`: `history?.[0]`. -/
def getLastSession (st : HistoryState) (chatId : Nat) : Option SessionHistoryEntry :=
  (getChat st chatId).head?

/-- `SessionHistory.getSessionByConversationId`. -/
def getSessionByConversationId (st : HistoryState) (chatId : Nat)
    (conversationId : String) : Option SessionHistoryEntry :=
  (getChat st chatId).find? (fun e => e.conversationId == conversationId)

/-- `SessionHistory.updateLastMessage`. -/
def updateLastMessage (now : String) (st : HistoryState) (chatId : Nat)
    (conversationId preview : String) : HistoryState :=
  match assocFind st chatId with
  | none => st
  | some history =>
    match history.findIdx? (fun e => e.conversationId == conversationId) with
    | none => st
    | some i =>
      match history.get? i with
      | none => st
      | some e =>
        assocSet st chatId
          (history.set i { e with lastMessagePreview := substringTo preview 100
                                  lastActivity := now })

/-- `SessionHistory.updateClaudeSessionId`. -/
def updateClaudeSessionId (now : String) (st : HistoryState) (chatId : Nat)
    (conversationId claudeSessionId : String) : HistoryState :=
  match assocFind st chatId with
  | none => st
  | some history =>
    match history.findIdx? (fun e => e.conversationId == conversationId) with
    | none => st
    | some i =>
      match history.get? i with
      | none => st
      | some e =>
        assocSet st chatId
          (history.set i { e with claudeSessionId := some claudeSessionId
                                  lastActivity := now })

/-- `SessionHistory.clearHistory`. -/
def clearHistory (st : HistoryState) (chatId : Nat) : HistoryState :=
  assocDelete st chatId

/-! ### Persistence: `save` (JSON.stringify) and `load` (parse + validate) -/

/-- Decimal rendering of a numeric chat id as a JSON object key
(`JSON.stringify` writes `String(chatId)`). -/
def renderChatKey (c : Nat) : String :=
  if c = 0 then "0"
  else String.mk (((Nat.digits 10 c).map (fun d => Char.ofNat (d + 48))).reverse)

/-- Model of `parseInt(key, 10)` restricted to the non-negative integers the
store itself writes: all-digit, non-empty keys parse; anything else is
treated as the skipped `NaN` case. -/
def parseChatKey (s : String) : Option Nat :=
  if s.toList.isEmpty then none
  else if s.toList.all Char.isDigit then
    some (Nat.ofDigits 10 ((s.toList.map (fun ch => ch.toNat - 48)).reverse))
  else none

/-- The serialized file content (`{ sessions: { "<chatId>": [entry, ...] } }`):
`SessionHistory.save` modulo JSON text encoding, which is injective on the
string fields and omits an absent `claudeSessionId`. -/
def saveFile (st : HistoryState) : List (String × List SessionHistoryEntry) :=
  st.map (fun p => (renderChatKey p.1, p.2))

/-- `SessionHistory.load` on a schema-valid document: convert string keys to
numbers with `parseInt`, skipping keys that do not parse, assigning
`this.data.sessions[chatId] = value` in order. -/
def loadFile (f : List (String × List SessionHistoryEntry)) : HistoryState :=
  f.foldl (fun acc kv =>
    match parseChatKey kv.1 with
    | some c => assocSet acc c kv.2
    | none => acc) []

/-! ### PathResolver (`resolveWorkingDirectory`, session-manager.ts) -/

/-- JS `storedPath.startsWith(pre)` on the character sequence. -/
def jsStartsWith (s pre : String) : Bool :=
  pre.toList.isPrefixOf s.toList

/-- The spliced candidate for one home prefix: strip the prefix
(`storedPath.slice(prefix.length)`), find the first `/` after the username
segment (`rest.indexOf('/')`), splice the remainder onto `home`
(`slashIdx === -1` means the whole remainder is the username: candidate is
`home` itself). Only meaningful when `storedPath` starts with `pre`. -/
def remapSplice (home pre storedPath : String) : String :=
  let rest := storedPath.toList.drop pre.toList.length
  match rest.findIdx? (fun ch => ch == '/') with
  | none => home
  | some i => home ++ String.mk (rest.drop i)

/-- One iteration of the `for (const prefix of homePrefixes)` loop: returns
the remapped path when `storedPath` starts with `pre` and the candidate
exists on the filesystem. -/
def tryRemap (fs : List String) (home pre storedPath : String) : Option String :=
  if jsStartsWith storedPath pre then
    let remapped := remapSplice home pre storedPath
    if fs.contains remapped then some remapped else none
  else none

/-- `resolveWorkingDirectory`: existing path as-is; else try remapping under
`/Users/` then `/home/`; else fall back to `home`. -/
def resolveWorkingDirectory (fs : List String) (home storedPath : String) : String :=
  if fs.contains storedPath then storedPath
  else
    match tryRemap fs home "/Users/" storedPath with
    | some r => r
    | none =>
      match tryRemap fs home "/home/" storedPath with
      | some r => r
      | none => home

/-! ### SessionManager (session-manager.ts) -/

/-- Combined state: the live cache (`SessionManager.sessions`) and the
history store it checkpoints into. -/
structure ManagerState where
  cache : List (Nat × Session)
  history : HistoryState
deriving DecidableEq, Repr

def initialManagerState : ManagerState := { cache := [], history := [] }

/-- `SessionManager.getSession`. -/
def smGetSession (st : ManagerState) (chatId : Nat) : Option Session :=
  assocFind st.cache chatId

/-- `SessionManager.createSession`. `conversationId?` is the optional caller
id (`conversationId || this.generateConversationId()`: the empty string is
falsy in JS); `genId` is the token `generateConversationId` would mint. -/
def smCreateSession (fs : List String) (home now genId : String)
    (st : ManagerState) (chatId : Nat) (workingDirectory : String)
    (conversationId : Option String) : Session × ManagerState :=
  let resolved := resolveWorkingDirectory fs home workingDirectory
  let cid := match conversationId with
    | some c => if c = "" then genId else c
    | none => genId
  let session : Session :=
    { conversationId := cid
      claudeSessionId := none
      workingDirectory := resolved
      createdAt := now
      lastActivity := now }
  (session,
    { cache := assocSet st.cache chatId session
      history := saveSession now st.history chatId cid resolved "" none })

/-- `SessionManager.updateActivity` (`if (messagePreview)`: only a defined,
non-empty preview is forwarded). -/
def smUpdateActivity (now : String) (st : ManagerState) (chatId : Nat)
    (messagePreview : Option String) : ManagerState :=
  match assocFind st.cache chatId with
  | none => st
  | some session =>
    let session' := { session with lastActivity := now }
    let cache' := assocSet st.cache chatId session'
    match messagePreview with
    | some p =>
      if p = "" then { st with cache := cache' }
      else { cache := cache'
             history := updateLastMessage now st.history chatId session.conversationId p }
    | none => { st with cache := cache' }

/-- `SessionManager.setWorkingDirectory`. -/
def smSetWorkingDirectory (fs : List String) (home now genId : String)
    (st : ManagerState) (chatId : Nat) (directory : String) :
    Session × ManagerState :=
  match assocFind st.cache chatId with
  | some existing =>
    let existing' := { existing with workingDirectory := directory, lastActivity := now }
    (existing',
      { cache := assocSet st.cache chatId existing'
        history := saveSession now st.history chatId existing.conversationId directory ""
          existing.claudeSessionId })
  | none => smCreateSession fs home now genId st chatId directory none

/-- `SessionManager.clearSession` (history intentionally untouched). -/
def smClearSession (st : ManagerState) (chatId : Nat) : ManagerState :=
  { st with cache := assocDelete st.cache chatId }

/-- `SessionManager.resumeSession`. -/
def smResumeSession (fs : List String) (home now : String) (st : ManagerState)
    (chatId : Nat) (conversationId : String) : Option Session × ManagerState :=
  match getSessionByConversationId st.history chatId conversationId with
  | none => (none, st)
  | some historyEntry =>
    let resolvedPath := resolveWorkingDirectory fs home historyEntry.projectPath
    let session : Session :=
      { conversationId := historyEntry.conversationId
        claudeSessionId := historyEntry.claudeSessionId
        workingDirectory := resolvedPath
        createdAt := historyEntry.createdAt
        lastActivity := now }
    (some session,
      { cache := assocSet st.cache chatId session
        history := saveSession now st.history chatId conversationId resolvedPath
          historyEntry.lastMessagePreview historyEntry.claudeSessionId })

/-- `SessionManager.resumeLastSession`. -/
def smResumeLastSession (fs : List String) (home now : String) (st : ManagerState)
    (chatId : Nat) : Option Session × ManagerState :=
  match getLastSession st.history chatId with
  | none => (none, st)
  | some lastEntry => smResumeSession fs home now st chatId lastEntry.conversationId

/-- `SessionManager.getSessionHistory`. -/
def smGetSessionHistory (st : ManagerState) (chatId : Nat) (limit : Nat := 5) :
    List SessionHistoryEntry :=
  getHistory st.history chatId limit

/-- `SessionManager.setClaudeSessionId`. -/
def smSetClaudeSessionId (now : String) (st : ManagerState) (chatId : Nat)
    (claudeSessionId : String) : ManagerState :=
  match assocFind st.cache chatId with
  | none => st
  | some session =>
    let session' := { session with claudeSessionId := some claudeSessionId
                                   lastActivity := now }
    { cache := assocSet st.cache chatId session'
      history := updateClaudeSessionId now st.history chatId session.conversationId
        claudeSessionId }

/-! ### Reachability -/

/-- History states built exclusively through the public mutating operations
of `SessionHistory`, starting from the empty store. -/
inductive HReach : HistoryState → Prop
  | empty : HReach []
  | save (st : HistoryState) (now cid pp pre : String) (csid : Option String)
      (chatId : Nat) : HReach st → HReach (saveSession now st chatId cid pp pre csid)
  | updMsg (st : HistoryState) (now cid pre : String) (chatId : Nat) :
      HReach st → HReach (updateLastMessage now st chatId cid pre)
  | updCsid (st : HistoryState) (now cid csid : String) (chatId : Nat) :
      HReach st → HReach (updateClaudeSessionId now st chatId cid csid)
  | clear (st : HistoryState) (chatId : Nat) :
      HReach st → HReach (clearHistory st chatId)

/-- History states built through the public mutating operations with
timestamps that never decrease; the index is an upper bound (under the
lexicographic string order, which agrees with time on ISO-8601 stamps) on
every timestamp used so far. -/
inductive HReachT : String → HistoryState → Prop
  | empty (t : String) : HReachT t []
  | save (st : HistoryState) (t now cid pp pre : String) (csid : Option String)
      (chatId : Nat) : HReachT t st → t ≤ now →
      HReachT now (saveSession now st chatId cid pp pre csid)
  | updMsg (st : HistoryState) (t now cid pre : String) (chatId : Nat) :
      HReachT t st → t ≤ now → HReachT now (updateLastMessage now st chatId cid pre)
  | updCsid (st : HistoryState) (t now cid csid : String) (chatId : Nat) :
      HReachT t st → t ≤ now →
      HReachT now (updateClaudeSessionId now st chatId cid csid)
  | clear (st : HistoryState) (t : String) (chatId : Nat) :
      HReachT t st → HReachT t (clearHistory st chatId)

/-- Manager states built exclusively through the public `SessionManager`
operations, starting from the empty cache and empty history. -/
inductive SMReach : ManagerState → Prop
  | init : SMReach initialManagerState
  | create (st : ManagerState) (fs : List String) (home now genId wd : String)
      (cid : Option String) (chatId : Nat) : SMReach st →
      SMReach (smCreateSession fs home now genId st chatId wd cid).2
  | updateActivity (st : ManagerState) (now : String) (chatId : Nat)
      (preview : Option String) : SMReach st →
      SMReach (smUpdateActivity now st chatId preview)
  | setWorkingDirectory (st : ManagerState) (fs : List String)
      (home now genId dir : String) (chatId : Nat) : SMReach st →
      SMReach (smSetWorkingDirectory fs home now genId st chatId dir).2
  | clearSession (st : ManagerState) (chatId : Nat) : SMReach st →
      SMReach (smClearSession st chatId)
  | resume (st : ManagerState) (fs : List String) (home now cid : String)
      (chatId : Nat) : SMReach st →
      SMReach (smResumeSession fs home now st chatId cid).2
  | resumeLast (st : ManagerState) (fs : List String) (home now : String)
      (chatId : Nat) : SMReach st →
      SMReach (smResumeLastSession fs home now st chatId).2
  | setClaude (st : ManagerState) (now csid : String) (chatId : Nat) :
      SMReach st → SMReach (smSetClaudeSessionId now st chatId csid)

/-- Every chat's list is ordered most-recent-first: creation stamps are
non-increasing along the list. -/
def chatsSortedByCreation (st : HistoryState) : Prop :=
  ∀ c, ((getChat st c).map (fun e => e.createdAt)).Pairwise (fun a b => b ≤ a)

/-- Every entry of every chat was created no later than `t`. -/
def chatsCreatedLe (t : String) (st : HistoryState) : Prop :=
  ∀ c, ∀ e ∈ getChat st c, e.createdAt ≤ t

/-- The live-cache/history consistency invariant: every live session's
conversation is recorded in its chat's history, and histories are bounded. -/
def cacheHistoryInv (st : ManagerState) : Prop :=
  (∀ c, (getChat st.history c).length ≤ MAX_HISTORY_PER_CHAT) ∧
  (∀ c s, assocFind st.cache c = some s →
    s.conversationId ∈ (getChat st.history c).map (fun e => e.conversationId))

/-- `n` successive saves of pairwise-distinct conversations into chat 1,
used to exhibit a full history. -/
def iterSaves : Nat → HistoryState
  | 0 => []
  | n + 1 =>
    saveSession "2025" (iterSaves n) 1 (String.mk (List.replicate (n + 1) 'a'))
      "/p" "" none

/-! ## Laws of the association-list primitives -/

theorem assocFind_cons {α : Type} (p : Nat × α) (l : List (Nat × α)) (c : Nat) :
    assocFind (p :: l) c = if p.1 = c then some p.2 else assocFind l c := by
  by_cases h : p.1 = c
  · simp [assocFind, List.find?_cons_of_pos, h]
  · simp [assocFind, List.find?_cons_of_neg, h]

theorem assocHas_cons {α : Type} (p : Nat × α) (l : List (Nat × α)) (c : Nat) :
    assocHas (p :: l) c = ((p.1 == c) || assocHas l c) := by
  simp [assocHas]

theorem assocFind_eq_none_of_not_has {α : Type} (l : List (Nat × α)) (c : Nat)
    (h : assocHas l c = false) : assocFind l c = none := by
  induction l with
  | nil => rfl
  | cons p tl ih =>
    rw [assocHas_cons] at h
    rcases Bool.or_eq_false_iff.mp h with ⟨h1, h2⟩
    rw [assocFind_cons, if_neg (by simpa using h1), ih h2]

theorem assocFind_mapReplace_self {α : Type} (l : List (Nat × α)) (c : Nat) (a : α)
    (h : assocHas l c = true) :
    assocFind (l.map (fun p => if p.1 == c then (c, a) else p)) c = some a := by
  induction l with
  | nil => simp [assocHas] at h
  | cons p tl ih =>
    by_cases hp : p.1 = c
    · simp [assocFind_cons, hp]
    · rw [assocHas_cons] at h
      have h2 : assocHas tl c = true := by
        rcases Bool.or_eq_true_iff.mp h with h1 | h1
        · exact absurd (by simpa using h1) hp
        · exact h1
      simp only [List.map_cons]
      rw [if_neg (by simpa using hp), assocFind_cons, if_neg hp]
      exact ih h2

theorem assocFind_mapReplace_ne {α : Type} (l : List (Nat × α)) (c c' : Nat) (a : α)
    (h : c' ≠ c) :
    assocFind (l.map (fun p => if p.1 == c then (c, a) else p)) c' = assocFind l c' := by
  induction l with
  | nil => rfl
  | cons p tl ih =>
    by_cases hp : p.1 = c
    · simp only [List.map_cons]
      rw [if_pos (by simpa using hp), assocFind_cons, assocFind_cons,
        if_neg (by simpa using (Ne.symm h)), if_neg (by simp [hp]; exact fun hc => h hc.symm)]
      exact ih
    · simp only [List.map_cons]
      rw [if_neg (by simpa using hp), assocFind_cons, assocFind_cons]
      by_cases hq : p.1 = c'
      · simp [hq]
      · rw [if_neg hq, if_neg hq]
        exact ih

theorem assocFind_append {α : Type} (l₁ l₂ : List (Nat × α)) (c : Nat) :
    assocFind (l₁ ++ l₂) c =
      match assocFind l₁ c with
      | some a => some a
      | none => assocFind l₂ c := by
  induction l₁ with
  | nil => simp [assocFind]
  | cons p tl ih =>
    by_cases hp : p.1 = c
    · simp [assocFind_cons, hp]
    · simpa [assocFind_cons, hp] using ih

theorem assocFind_assocSet_self {α : Type} (l : List (Nat × α)) (c : Nat) (a : α) :
    assocFind (assocSet l c a) c = some a := by
  unfold assocSet
  by_cases h : assocHas l c
  · rw [if_pos h]
    exact assocFind_mapReplace_self l c a h
  · rw [if_neg h]
    rw [assocFind_append]
    rw [assocFind_eq_none_of_not_has l c (by simpa using h)]
    simp [assocFind_cons]

theorem assocFind_assocSet_ne {α : Type} (l : List (Nat × α)) (c c' : Nat) (a : α)
    (h : c' ≠ c) : assocFind (assocSet l c a) c' = assocFind l c' := by
  unfold assocSet
  by_cases hh : assocHas l c
  · rw [if_pos hh]
    exact assocFind_mapReplace_ne l c c' a h
  · rw [if_neg hh, assocFind_append]
    cases hf : assocFind l c' with
    | some a' => rfl
    | none => simp [assocFind_cons, Ne.symm h, assocFind]

theorem assocFind_assocDelete_self {α : Type} (l : List (Nat × α)) (c : Nat) :
    assocFind (assocDelete l c) c = none := by
  apply assocFind_eq_none_of_not_has
  simp only [assocDelete, assocHas]
  rw [List.any_eq_false]
  intro p hp
  have := List.of_mem_filter hp
  simpa using this

theorem assocFind_assocDelete_ne {α : Type} (l : List (Nat × α)) (c c' : Nat)
    (h : c' ≠ c) : assocFind (assocDelete l c) c' = assocFind l c' := by
  induction l with
  | nil => rfl
  | cons p tl ih =>
    by_cases hp : p.1 = c
    · rw [assocFind_cons, if_neg (show p.1 ≠ c' by rw [hp]; exact Ne.symm h)]
      simp only [assocDelete, List.filter_cons]
      rw [if_neg (by simp [hp])]
      exact ih
    · simp only [assocDelete, List.filter_cons]
      rw [if_pos (by simp [hp]), assocFind_cons, assocFind_cons]
      by_cases hq : p.1 = c'
      · simp [hq]
      · rw [if_neg hq, if_neg hq]
        exact ih

theorem assocHas_append {α : Type} (l₁ l₂ : List (Nat × α)) (c : Nat) :
    assocHas (l₁ ++ l₂) c = (assocHas l₁ c || assocHas l₂ c) := by
  simp [assocHas]

theorem assocHas_iff_mem_keys {α : Type} (l : List (Nat × α)) (c : Nat) :
    assocHas l c = true ↔ c ∈ keys l := by
  simp only [assocHas, keys, List.any_eq_true, List.mem_map]
  constructor
  · rintro ⟨p, hp, he⟩
    exact ⟨p, hp, by simpa using (beq_iff_eq.mp he)⟩
  · rintro ⟨p, hp, he⟩
    exact ⟨p, hp, by simp [he]⟩

theorem assocHas_of_find {α : Type} (l : List (Nat × α)) (c : Nat) (a : α)
    (h : assocFind l c = some a) : assocHas l c = true := by
  by_contra hc
  rw [assocFind_eq_none_of_not_has l c (by simpa using hc)] at h
  exact Option.noConfusion h

theorem keys_assocSet {α : Type} (l : List (Nat × α)) (c : Nat) (a : α) :
    keys (assocSet l c a) = if assocHas l c then keys l else keys l ++ [c] := by
  unfold assocSet
  by_cases h : assocHas l c
  · rw [if_pos h, if_pos h]
    simp only [keys, List.map_map]
    apply List.map_congr_left
    intro p _
    by_cases hp : p.1 = c
    · simp [hp]
    · simp [hp]
  · rw [if_neg h, if_neg h]
    simp [keys]

theorem keys_nodup_assocSet {α : Type} (l : List (Nat × α)) (c : Nat) (a : α)
    (h : (keys l).Nodup) : (keys (assocSet l c a)).Nodup := by
  rw [keys_assocSet]
  by_cases hh : assocHas l c
  · rwa [if_pos hh]
  · rw [if_neg hh]
    have hc : c ∉ keys l := fun hm => hh ((assocHas_iff_mem_keys l c).mpr hm)
    simpa [List.nodup_append] using ⟨h, hc⟩

theorem keys_nodup_assocDelete {α : Type} (l : List (Nat × α)) (c : Nat)
    (h : (keys l).Nodup) : (keys (assocDelete l c)).Nodup := by
  apply List.Nodup.sublist _ h
  exact List.Sublist.map _ (List.filter_sublist l)

/-! ## Shape of the two field-update operations -/

theorem updateLastMessage_shape (now : String) (st : HistoryState) (chatId : Nat)
    (cid preview : String) :
    updateLastMessage now st chatId cid preview = st ∨
    ∃ history i e, assocFind st chatId = some history ∧
      history.findIdx? (fun x => x.conversationId == cid) = some i ∧
      history.get? i = some e ∧
      updateLastMessage now st chatId cid preview =
        assocSet st chatId
          (history.set i { e with lastMessagePreview := substringTo preview 100
                                  lastActivity := now }) := by
  unfold updateLastMessage
  split
  next h1 => exact Or.inl rfl
  next history h1 =>
    split
    next h2 => exact Or.inl rfl
    next i h2 =>
      split
      next h3 => exact Or.inl rfl
      next e h3 => exact Or.inr ⟨history, i, e, h1, h2, h3, rfl⟩

theorem updateClaudeSessionId_shape (now : String) (st : HistoryState) (chatId : Nat)
    (cid csid : String) :
    updateClaudeSessionId now st chatId cid csid = st ∨
    ∃ history i e, assocFind st chatId = some history ∧
      history.findIdx? (fun x => x.conversationId == cid) = some i ∧
      history.get? i = some e ∧
      updateClaudeSessionId now st chatId cid csid =
        assocSet st chatId
          (history.set i { e with claudeSessionId := some csid
                                  lastActivity := now }) := by
  unfold updateClaudeSessionId
  split
  next h1 => exact Or.inl rfl
  next history h1 =>
    split
    next h2 => exact Or.inl rfl
    next i h2 =>
      split
      next h3 => exact Or.inl rfl
      next e h3 => exact Or.inr ⟨history, i, e, h1, h2, h3, rfl⟩

/-! ## Key-set invariant of reachable history states -/

theorem keys_nodup_of_HReach (st : HistoryState) (h : HReach st) :
    (keys st).Nodup := by
  induction h with
  | empty => simp [keys]
  | save st now cid pp pre csid chatId _ ih =>
    exact keys_nodup_assocSet _ _ _ ih
  | updMsg st now cid pre chatId _ ih =>
    rcases updateLastMessage_shape now st chatId cid pre with heq | ⟨_, _, _, _, _, _, heq⟩
    · rwa [heq]
    · rw [heq]; exact keys_nodup_assocSet _ _ _ ih
  | updCsid st now cid csid chatId _ ih =>
    rcases updateClaudeSessionId_shape now st chatId cid csid with heq | ⟨_, _, _, _, _, _, heq⟩
    · rwa [heq]
    · rw [heq]; exact keys_nodup_assocSet _ _ _ ih
  | clear st chatId _ ih =>
    exact keys_nodup_assocDelete _ _ ih

/-! ## getChat frame laws -/

theorem getChat_assocSet_self (st : HistoryState) (c : Nat)
    (l : List SessionHistoryEntry) : getChat (assocSet st c l) c = l := by
  simp [getChat, assocFind_assocSet_self]

theorem getChat_assocSet_ne (st : HistoryState) (c c' : Nat)
    (l : List SessionHistoryEntry) (h : c' ≠ c) :
    getChat (assocSet st c l) c' = getChat st c' := by
  simp [getChat, assocFind_assocSet_ne st c c' l h]

theorem getChat_clearHistory_self (st : HistoryState) (c : Nat) :
    getChat (clearHistory st c) c = [] := by
  simp [getChat, clearHistory, assocFind_assocDelete_self]

theorem getChat_clearHistory_ne (st : HistoryState) (c c' : Nat) (h : c' ≠ c) :
    getChat (clearHistory st c) c' = getChat st c' := by
  simp [getChat, clearHistory, assocFind_assocDelete_ne st c c' h]

theorem getChat_saveSession_self (now : String) (st : HistoryState) (chatId : Nat)
    (cid pp pre : String) (csid : Option String) :
    getChat (saveSession now st chatId cid pp pre csid) chatId =
      saveSessionChat now cid pp pre csid (getChat st chatId) := by
  simp [saveSession, getChat_assocSet_self]

theorem getChat_saveSession_ne (now : String) (st : HistoryState) (chatId c' : Nat)
    (cid pp pre : String) (csid : Option String) (h : c' ≠ chatId) :
    getChat (saveSession now st chatId cid pp pre csid) c' = getChat st c' := by
  simp [saveSession, getChat_assocSet_ne _ _ _ _ h]

theorem getChat_of_assocFind (st : HistoryState) (c : Nat)
    (history : List SessionHistoryEntry) (h : assocFind st c = some history) :
    getChat st c = history := by
  simp [getChat, h]

/-- An index update writing back the element already there is the identity. -/
theorem set_of_get?_eq {α : Type} (l : List α) (i : Nat) (a : α)
    (h : l.get? i = some a) : l.set i a = l := by
  induction l generalizing i with
  | nil => simp at h
  | cons x tl ih =>
    cases i with
    | zero =>
      simp only [List.get?] at h
      cases h
      rfl
    | succ n =>
      simp only [List.get?] at h
      simp [List.set, ih n h]

/-! ## Case analysis of saveSessionChat -/

theorem saveSessionChat_found (now cid pp pre : String) (csid : Option String)
    (history : List SessionHistoryEntry) (i : Nat) (e : SessionHistoryEntry)
    (h : history.findIdx? (fun x => x.conversationId == cid) = some i)
    (he : history.get? i = some e)
    (hlen : history.length ≤ MAX_HISTORY_PER_CHAT) :
    saveSessionChat now cid pp pre csid history =
      history.set i (mkEntry now cid pp pre csid (some e)) := by
  unfold saveSessionChat
  simp only [h, he, Option.some_bind, mkEntry]
  rw [if_neg]
  simp only [List.length_set]
  omega

theorem saveSessionChat_new (now cid pp pre : String) (csid : Option String)
    (history : List SessionHistoryEntry)
    (h : history.findIdx? (fun x => x.conversationId == cid) = none) :
    saveSessionChat now cid pp pre csid history =
      if history.length + 1 > MAX_HISTORY_PER_CHAT
      then (mkEntry now cid pp pre csid none :: history).take MAX_HISTORY_PER_CHAT
      else mkEntry now cid pp pre csid none :: history := by
  unfold saveSessionChat
  simp only [h, Option.none_bind, mkEntry, List.length_cons]

theorem saveSessionChat_length_le (now cid pp pre : String) (csid : Option String)
    (history : List SessionHistoryEntry)
    (hlen : history.length ≤ MAX_HISTORY_PER_CHAT) :
    (saveSessionChat now cid pp pre csid history).length ≤ MAX_HISTORY_PER_CHAT := by
  cases h : history.findIdx? (fun x => x.conversationId == cid) with
  | some i =>
    have hi : i < history.length :=
      (List.findIdx?_eq_some_iff_getElem.mp h).1
    have he : history.get? i = some (history.get ⟨i, hi⟩) := List.get?_eq_get hi
    rw [saveSessionChat_found now cid pp pre csid history i _ h he hlen]
    simpa using hlen
  | none =>
    rw [saveSessionChat_new now cid pp pre csid history h]
    by_cases hl : history.length + 1 > MAX_HISTORY_PER_CHAT
    · rw [if_pos hl]
      simp
    · rw [if_neg hl]
      simp only [List.length_cons]
      omega

theorem getChat_nil (c : Nat) : getChat ([] : HistoryState) c = [] := rfl

theorem getChat_updateLastMessage_length (now : String) (st : HistoryState)
    (chatId : Nat) (cid pre : String) (c : Nat) :
    (getChat (updateLastMessage now st chatId cid pre) c).length =
      (getChat st c).length := by
  rcases updateLastMessage_shape now st chatId cid pre with heq |
    ⟨history, i, e, h1, _, _, heq⟩
  · rw [heq]
  · rw [heq]
    by_cases hc : c = chatId
    · subst hc
      rw [getChat_assocSet_self, getChat_of_assocFind st c history h1,
        List.length_set]
    · rw [getChat_assocSet_ne _ _ _ _ hc]

theorem getChat_updateClaudeSessionId_length (now : String) (st : HistoryState)
    (chatId : Nat) (cid csid : String) (c : Nat) :
    (getChat (updateClaudeSessionId now st chatId cid csid) c).length =
      (getChat st c).length := by
  rcases updateClaudeSessionId_shape now st chatId cid csid with heq |
    ⟨history, i, e, h1, _, _, heq⟩
  · rw [heq]
  · rw [heq]
    by_cases hc : c = chatId
    · subst hc
      rw [getChat_assocSet_self, getChat_of_assocFind st c history h1,
        List.length_set]
    · rw [getChat_assocSet_ne _ _ _ _ hc]

/-- The per-chat length bound, an invariant of every reachable history state. -/
theorem length_le_of_HReach (st : HistoryState) (h : HReach st) (c : Nat) :
    (getChat st c).length ≤ MAX_HISTORY_PER_CHAT := by
  induction h with
  | empty => simp [getChat_nil]
  | save st now cid pp pre csid chatId _ ih =>
    by_cases hc : c = chatId
    · subst hc
      rw [getChat_saveSession_self]
      exact saveSessionChat_length_le now cid pp pre csid _ (ih)
    · rw [getChat_saveSession_ne _ _ _ _ _ _ _ _ hc]
      exact ih
  | updMsg st now cid pre chatId _ ih =>
    rw [getChat_updateLastMessage_length]
    exact ih
  | updCsid st now cid csid chatId _ ih =>
    rw [getChat_updateClaudeSessionId_length]
    exact ih
  | clear st chatId _ ih =>
    by_cases hc : c = chatId
    · subst hc
      simp [getChat_clearHistory_self]
    · rw [getChat_clearHistory_ne _ _ _ hc]
      exact ih

/-! ## Most-recent-first ordering invariant -/

theorem HReach_of_HReachT (t : String) (st : HistoryState) (h : HReachT t st) :
    HReach st := by
  induction h with
  | empty t => exact HReach.empty
  | save st t now cid pp pre csid chatId hr hle ih =>
    exact HReach.save st now cid pp pre csid chatId ih
  | updMsg st t now cid pre chatId hr hle ih =>
    exact HReach.updMsg st now cid pre chatId ih
  | updCsid st t now cid csid chatId hr hle ih =>
    exact HReach.updCsid st now cid csid chatId ih
  | clear st t chatId hr ih =>
    exact HReach.clear st chatId ih

theorem sorted_createdLe_of_HReachT (t : String) (st : HistoryState)
    (h : HReachT t st) : chatsSortedByCreation st ∧ chatsCreatedLe t st := by
  induction h with
  | empty t =>
    refine ⟨fun c => by simp [getChat_nil], fun c e he => by simp [getChat_nil] at he⟩
  | save st t now cid pp pre csid chatId hr hle ih =>
    obtain ⟨ihs, ihb⟩ := ih
    have hlen : (getChat st chatId).length ≤ MAX_HISTORY_PER_CHAT :=
      length_le_of_HReach st (HReach_of_HReachT t st hr) chatId
    constructor
    · intro c
      by_cases hc : c = chatId
      · subst hc
        rw [getChat_saveSession_self]
        cases hidx : (getChat st c).findIdx? (fun x => x.conversationId == cid) with
        | some i =>
          have hi : i < (getChat st c).length :=
            (List.findIdx?_eq_some_iff_getElem.mp hidx).1
          have he : (getChat st c).get? i = some ((getChat st c).get ⟨i, hi⟩) :=
            List.get?_eq_get hi
          rw [saveSessionChat_found now cid pp pre csid _ i _ hidx he hlen]
          have hmap : (((getChat st c).set i
              (mkEntry now cid pp pre csid (some ((getChat st c).get ⟨i, hi⟩)))).map
                (fun e => e.createdAt)) =
              (getChat st c).map (fun e => e.createdAt) := by
            rw [List.map_set]
            apply set_of_get?_eq
            rw [List.get?_map, he]
            rfl
          rw [hmap]
          exact ihs c
        | none =>
          rw [saveSessionChat_new now cid pp pre csid _ hidx]
          have hsorted : ((mkEntry now cid pp pre csid none :: getChat st c).map
              (fun e => e.createdAt)).Pairwise (fun a b => b ≤ a) := by
            rw [List.map_cons, List.pairwise_cons]
            refine ⟨fun b hb => ?_, ihs c⟩
            rw [List.mem_map] at hb
            obtain ⟨e, hemem, heq⟩ := hb
            calc b = e.createdAt := heq.symm
              _ ≤ t := ihb c e hemem
              _ ≤ now := hle
          by_cases hl : (getChat st c).length + 1 > MAX_HISTORY_PER_CHAT
          · rw [if_pos hl, List.map_take]
            exact List.Pairwise.sublist (List.take_sublist _ _) hsorted
          · rw [if_neg hl]
            exact hsorted
      · rw [getChat_saveSession_ne _ _ _ _ _ _ _ _ hc]
        exact ihs c
    · intro c e he
      by_cases hc : c = chatId
      · subst hc
        rw [getChat_saveSession_self] at he
        cases hidx : (getChat st c).findIdx? (fun x => x.conversationId == cid) with
        | some i =>
          have hi : i < (getChat st c).length :=
            (List.findIdx?_eq_some_iff_getElem.mp hidx).1
          have hg : (getChat st c).get? i = some ((getChat st c).get ⟨i, hi⟩) :=
            List.get?_eq_get hi
          rw [saveSessionChat_found now cid pp pre csid _ i _ hidx hg hlen] at he
          rcases List.mem_or_eq_of_mem_set he with hmem | heq
          · exact le_trans (ihb c e hmem) hle
          · subst heq
            show ((getChat st c).get ⟨i, hi⟩).createdAt ≤ now
            exact le_trans (ihb c _ (List.get_mem _ i hi)) hle
        | none =>
          rw [saveSessionChat_new now cid pp pre csid _ hidx] at he
          have hmem : e ∈ mkEntry now cid pp pre csid none :: getChat st c := by
            by_cases hl : (getChat st c).length + 1 > MAX_HISTORY_PER_CHAT
            · rw [if_pos hl] at he
              exact List.take_subset _ _ he
            · rw [if_neg hl] at he
              exact he
          rcases List.mem_cons.mp hmem with heq | hmem
          · subst heq
            exact le_refl now
          · exact le_trans (ihb c e hmem) hle
      · rw [getChat_saveSession_ne _ _ _ _ _ _ _ _ hc] at he
        exact le_trans (ihb c e he) hle
  | updMsg st t now cid pre chatId hr hle ih =>
    obtain ⟨ihs, ihb⟩ := ih
    rcases updateLastMessage_shape now st chatId cid pre with heq |
      ⟨history, i, e0, h1, h2, h3, heq⟩
    · rw [heq]
      exact ⟨ihs, fun c e he => le_trans (ihb c e he) hle⟩
    · rw [heq]
      have hch : getChat st chatId = history := getChat_of_assocFind st chatId history h1
      constructor
      · intro c
        by_cases hc : c = chatId
        · subst hc
          rw [getChat_assocSet_self]
          have hmap : ((history.set i
              { e0 with lastMessagePreview := substringTo pre 100
                        lastActivity := now }).map (fun e => e.createdAt)) =
              history.map (fun e => e.createdAt) := by
            rw [List.map_set]
            apply set_of_get?_eq
            rw [List.get?_map, h3]
            rfl
          rw [hmap, ← hch]
          exact ihs c
        · rw [getChat_assocSet_ne _ _ _ _ hc]
          exact ihs c
      · intro c e he
        by_cases hc : c = chatId
        · subst hc
          rw [getChat_assocSet_self] at he
          rcases List.mem_or_eq_of_mem_set he with hmem | heq2
          · exact le_trans (ihb c e (hch ▸ hmem)) hle
          · subst heq2
            show e0.createdAt ≤ now
            exact le_trans (ihb c e0 (hch ▸ List.get?_mem h3)) hle
        · rw [getChat_assocSet_ne _ _ _ _ hc] at he
          exact le_trans (ihb c e he) hle
  | updCsid st t now cid csid chatId hr hle ih =>
    obtain ⟨ihs, ihb⟩ := ih
    rcases updateClaudeSessionId_shape now st chatId cid csid with heq |
      ⟨history, i, e0, h1, h2, h3, heq⟩
    · rw [heq]
      exact ⟨ihs, fun c e he => le_trans (ihb c e he) hle⟩
    · rw [heq]
      have hch : getChat st chatId = history := getChat_of_assocFind st chatId history h1
      constructor
      · intro c
        by_cases hc : c = chatId
        · subst hc
          rw [getChat_assocSet_self]
          have hmap : ((history.set i
              { e0 with claudeSessionId := some csid
                        lastActivity := now }).map (fun e => e.createdAt)) =
              history.map (fun e => e.createdAt) := by
            rw [List.map_set]
            apply set_of_get?_eq
            rw [List.get?_map, h3]
            rfl
          rw [hmap, ← hch]
          exact ihs c
        · rw [getChat_assocSet_ne _ _ _ _ hc]
          exact ihs c
      · intro c e he
        by_cases hc : c = chatId
        · subst hc
          rw [getChat_assocSet_self] at he
          rcases List.mem_or_eq_of_mem_set he with hmem | heq2
          · exact le_trans (ihb c e (hch ▸ hmem)) hle
          · subst heq2
            show e0.createdAt ≤ now
            exact le_trans (ihb c e0 (hch ▸ List.get?_mem h3)) hle
        · rw [getChat_assocSet_ne _ _ _ _ hc] at he
          exact le_trans (ihb c e he) hle
  | clear st t chatId hr ih =>
    obtain ⟨ihs, ihb⟩ := ih
    constructor
    · intro c
      by_cases hc : c = chatId
      · subst hc
        simp [getChat_clearHistory_self]
      · rw [getChat_clearHistory_ne _ _ _ hc]
        exact ihs c
    · intro c e he
      by_cases hc : c = chatId
      · subst hc
        rw [getChat_clearHistory_self] at he
        simp at he
      · rw [getChat_clearHistory_ne _ _ _ hc] at he
        exact ihb c e he

/-! ## Persistence round trip -/

theorem digitChar_spec (d : Nat) (h : d < 10) :
    (Char.ofNat (d + 48)).isDigit = true ∧ (Char.ofNat (d + 48)).toNat - 48 = d := by
  interval_cases d <;> exact ⟨by decide, by decide⟩

theorem parseChatKey_renderChatKey (c : Nat) : parseChatKey (renderChatKey c) = some c := by
  by_cases h0 : c = 0
  · subst h0
    decide
  · unfold renderChatKey parseChatKey
    rw [if_neg h0]
    have hne : Nat.digits 10 c ≠ [] := Nat.digits_ne_nil_iff_ne_zero.mpr h0
    have hlist : (String.mk (((Nat.digits 10 c).map
        (fun d => Char.ofNat (d + 48))).reverse)).toList =
        ((Nat.digits 10 c).map (fun d => Char.ofNat (d + 48))).reverse := rfl
    rw [hlist]
    have hnemap : (((Nat.digits 10 c).map (fun d => Char.ofNat (d + 48))).reverse).isEmpty = false := by
      rw [List.isEmpty_eq_false_iff_exists_mem]
      obtain ⟨d, hd⟩ := List.exists_mem_of_ne_nil _ hne
      exact ⟨Char.ofNat (d + 48), by simp; exact ⟨d, hd, rfl⟩⟩
    rw [hnemap]
    simp only [Bool.false_eq_true, if_false]
    have hall : (((Nat.digits 10 c).map (fun d => Char.ofNat (d + 48))).reverse).all
        Char.isDigit = true := by
      rw [List.all_eq_true]
      intro x hx
      rw [List.mem_reverse, List.mem_map] at hx
      obtain ⟨d, hd, rfl⟩ := hx
      exact (digitChar_spec d (Nat.digits_lt_base (by norm_num) hd)).1
    rw [hall]
    simp only [if_true]
    congr 1
    rw [List.map_reverse, List.reverse_reverse, List.map_map]
    have hmapid : (Nat.digits 10 c).map ((fun ch => ch.toNat - 48) ∘
        (fun d => Char.ofNat (d + 48))) = Nat.digits 10 c := by
      rw [List.map_congr_left (g := id), List.map_id]
      intro d hd
      exact (digitChar_spec d (Nat.digits_lt_base (by norm_num) hd)).2
    rw [hmapid, Nat.ofDigits_digits]

theorem assocSet_append_of_not_has {α : Type} (l : List (Nat × α)) (c : Nat) (a : α)
    (h : assocHas l c = false) : assocSet l c a = l ++ [(c, a)] := by
  unfold assocSet
  rw [if_neg (by simp [h])]

theorem loadFile_saveFile_aux (st : HistoryState) (acc : HistoryState)
    (hnd : (keys st).Nodup) (hdisj : ∀ c ∈ keys st, assocHas acc c = false) :
    (saveFile st).foldl (fun acc kv =>
      match parseChatKey kv.1 with
      | some c => assocSet acc c kv.2
      | none => acc) acc = acc ++ st := by
  induction st generalizing acc with
  | nil => simp [saveFile]
  | cons p tl ih =>
    obtain ⟨c, es⟩ := p
    simp only [saveFile, List.map_cons, List.foldl_cons, parseChatKey_renderChatKey]
    have hc0 : assocHas acc c = false := hdisj c (by simp [keys])
    rw [assocSet_append_of_not_has acc c es hc0]
    have hndtl : (keys tl).Nodup := by
      simp only [keys, List.map_cons, List.nodup_cons] at hnd
      exact hnd.2
    have hcnot : c ∉ keys tl := by
      simp only [keys, List.map_cons, List.nodup_cons] at hnd
      exact hnd.1
    have hdisj2 : ∀ c' ∈ keys tl, assocHas (acc ++ [(c, es)]) c' = false := by
      intro c' hc'
      rw [assocHas_append, hdisj c' (by simp [keys]; right; simpa [keys] using hc')]
      simp only [Bool.false_or]
      have : c ≠ c' := fun hcc => hcnot (hcc ▸ hc')
      simp [assocHas, this]
    have hresult := ih (acc ++ [(c, es)]) hndtl hdisj2
    simp only [saveFile] at hresult
    rw [hresult]
    simp

theorem loadFile_saveFile (st : HistoryState) (h : (keys st).Nodup) :
    loadFile (saveFile st) = st := by
  unfold loadFile
  have := loadFile_saveFile_aux st [] h (fun c _ => rfl)
  simpa using this

/-! ## saveSession presence and conversation-id preservation -/

theorem saveSession_mem_self (now : String) (st : HistoryState) (chatId : Nat)
    (cid pp pre : String) (csid : Option String)
    (hlen : (getChat st chatId).length ≤ MAX_HISTORY_PER_CHAT) :
    cid ∈ (getChat (saveSession now st chatId cid pp pre csid) chatId).map
      (fun e => e.conversationId) := by
  rw [getChat_saveSession_self]
  cases hidx : (getChat st chatId).findIdx? (fun x => x.conversationId == cid) with
  | some i =>
    have hi : i < (getChat st chatId).length :=
      (List.findIdx?_eq_some_iff_getElem.mp hidx).1
    have he : (getChat st chatId).get? i = some ((getChat st chatId).get ⟨i, hi⟩) :=
      List.get?_eq_get hi
    rw [saveSessionChat_found now cid pp pre csid _ i _ hidx he hlen]
    rw [List.mem_map]
    refine ⟨mkEntry now cid pp pre csid (some ((getChat st chatId).get ⟨i, hi⟩)), ?_, rfl⟩
    apply List.get?_mem (n := i)
    rw [List.get?_eq_getElem?, List.getElem?_set_self]
    simpa using hi
  | none =>
    rw [saveSessionChat_new now cid pp pre csid _ hidx]
    by_cases hl : (getChat st chatId).length + 1 > MAX_HISTORY_PER_CHAT
    · rw [if_pos hl]
      rw [List.mem_map]
      refine ⟨mkEntry now cid pp pre csid none, ?_, rfl⟩
      have : MAX_HISTORY_PER_CHAT = 19 + 1 := rfl
      rw [this, List.take_succ_cons]
      exact List.mem_cons_self _ _
    · rw [if_neg hl]
      rw [List.mem_map]
      exact ⟨mkEntry now cid pp pre csid none, List.mem_cons_self _ _, rfl⟩

theorem getChat_updateLastMessage_cids (now : String) (st : HistoryState)
    (chatId : Nat) (cid pre : String) (c : Nat) :
    (getChat (updateLastMessage now st chatId cid pre) c).map
        (fun e => e.conversationId) =
      (getChat st c).map (fun e => e.conversationId) := by
  rcases updateLastMessage_shape now st chatId cid pre with heq |
    ⟨history, i, e0, h1, h2, h3, heq⟩
  · rw [heq]
  · rw [heq]
    by_cases hc : c = chatId
    · subst hc
      rw [getChat_assocSet_self, getChat_of_assocFind st c history h1]
      rw [List.map_set]
      apply set_of_get?_eq
      rw [List.get?_map, h3]
      rfl
    · rw [getChat_assocSet_ne _ _ _ _ hc]

theorem getChat_updateClaudeSessionId_cids (now : String) (st : HistoryState)
    (chatId : Nat) (cid csid : String) (c : Nat) :
    (getChat (updateClaudeSessionId now st chatId cid csid) c).map
        (fun e => e.conversationId) =
      (getChat st c).map (fun e => e.conversationId) := by
  rcases updateClaudeSessionId_shape now st chatId cid csid with heq |
    ⟨history, i, e0, h1, h2, h3, heq⟩
  · rw [heq]
  · rw [heq]
    by_cases hc : c = chatId
    · subst hc
      rw [getChat_assocSet_self, getChat_of_assocFind st c history h1]
      rw [List.map_set]
      apply set_of_get?_eq
      rw [List.get?_map, h3]
      rfl
    · rw [getChat_assocSet_ne _ _ _ _ hc]

/-! ## Cache/history consistency under SessionManager operations -/

theorem cacheHistoryInv_create (fs : List String) (home now genId wd : String)
    (cido : Option String) (st : ManagerState) (chatId : Nat)
    (h : cacheHistoryInv st) :
    cacheHistoryInv (smCreateSession fs home now genId st chatId wd cido).2 := by
  obtain ⟨hlen, hmem⟩ := h
  unfold cacheHistoryInv
  simp only [smCreateSession]
  refine ⟨?_, ?_⟩
  · intro c
    by_cases hc : c = chatId
    · subst hc
      rw [getChat_saveSession_self]
      exact saveSessionChat_length_le _ _ _ _ _ _ (hlen c)
    · rw [getChat_saveSession_ne _ _ _ _ _ _ _ _ hc]
      exact hlen c
  · intro c s hs
    by_cases hc : c = chatId
    · subst hc
      rw [assocFind_assocSet_self] at hs
      cases hs
      exact saveSession_mem_self _ _ _ _ _ _ _ (hlen c)
    · rw [assocFind_assocSet_ne _ _ _ _ hc] at hs
      rw [getChat_saveSession_ne _ _ _ _ _ _ _ _ hc]
      exact hmem c s hs

theorem cacheHistoryInv_resume (fs : List String) (home now conversationId : String)
    (st : ManagerState) (chatId : Nat) (h : cacheHistoryInv st) :
    cacheHistoryInv (smResumeSession fs home now st chatId conversationId).2 := by
  obtain ⟨hlen, hmem⟩ := h
  unfold cacheHistoryInv
  unfold smResumeSession
  cases hfind : getSessionByConversationId st.history chatId conversationId with
  | none =>
    simp only [hfind]
    exact ⟨hlen, hmem⟩
  | some e =>
    simp only [hfind]
    refine ⟨?_, ?_⟩
    · intro c
      by_cases hc : c = chatId
      · subst hc
        rw [getChat_saveSession_self]
        exact saveSessionChat_length_le _ _ _ _ _ _ (hlen c)
      · rw [getChat_saveSession_ne _ _ _ _ _ _ _ _ hc]
        exact hlen c
    · intro c s hs
      by_cases hc : c = chatId
      · subst hc
        rw [assocFind_assocSet_self] at hs
        cases hs
        have hecid : e.conversationId = conversationId := by
          unfold getSessionByConversationId at hfind
          simpa using List.find?_some hfind
        show e.conversationId ∈ _
        rw [hecid]
        exact saveSession_mem_self _ _ _ _ _ _ _ (hlen c)
      · rw [assocFind_assocSet_ne _ _ _ _ hc] at hs
        rw [getChat_saveSession_ne _ _ _ _ _ _ _ _ hc]
        exact hmem c s hs

theorem cacheHistoryInv_of_SMReach (st : ManagerState) (h : SMReach st) :
    cacheHistoryInv st := by
  induction h with
  | init =>
    refine ⟨fun c => by simp [initialManagerState, getChat_nil], fun c s hs => ?_⟩
    simp [initialManagerState, assocFind] at hs
  | create st fs home now genId wd cid chatId hr ih =>
    exact cacheHistoryInv_create fs home now genId wd cid st chatId ih
  | updateActivity st now chatId preview hr ih =>
    obtain ⟨hlen, hmem⟩ := ih
    unfold cacheHistoryInv
    unfold smUpdateActivity
    cases hfind : assocFind st.cache chatId with
    | none => exact ⟨hlen, hmem⟩
    | some session =>
      have hcache : ∀ c s, assocFind (assocSet st.cache chatId
          { session with lastActivity := now }) c = some s →
          s.conversationId ∈ (getChat st.history c).map (fun e => e.conversationId) := by
        intro c s hs
        by_cases hc : c = chatId
        · subst hc
          rw [assocFind_assocSet_self] at hs
          cases hs
          exact hmem c session hfind
        · rw [assocFind_assocSet_ne _ _ _ _ hc] at hs
          exact hmem c s hs
      cases preview with
      | none => exact ⟨hlen, hcache⟩
      | some p =>
        dsimp only
        by_cases hp : p = ""
        · rw [if_pos hp]
          exact ⟨hlen, hcache⟩
        · rw [if_neg hp]
          refine ⟨fun c => ?_, fun c s hs => ?_⟩
          · simpa [getChat_updateLastMessage_length] using hlen c
          · have := hcache c s hs
            simpa [getChat_updateLastMessage_cids] using this
  | setWorkingDirectory st fs home now genId dir chatId hr ih =>
    unfold smSetWorkingDirectory
    cases hfind : assocFind st.cache chatId with
    | none =>
      exact cacheHistoryInv_create fs home now genId dir none st chatId ih
    | some existing =>
      obtain ⟨hlen, hmem⟩ := ih
      unfold cacheHistoryInv
      dsimp only
      refine ⟨?_, ?_⟩
      · intro c
        by_cases hc : c = chatId
        · subst hc
          rw [getChat_saveSession_self]
          exact saveSessionChat_length_le _ _ _ _ _ _ (hlen c)
        · rw [getChat_saveSession_ne _ _ _ _ _ _ _ _ hc]
          exact hlen c
      · intro c s hs
        by_cases hc : c = chatId
        · subst hc
          rw [assocFind_assocSet_self] at hs
          cases hs
          exact saveSession_mem_self _ _ _ _ _ _ _ (hlen c)
        · rw [assocFind_assocSet_ne _ _ _ _ hc] at hs
          rw [getChat_saveSession_ne _ _ _ _ _ _ _ _ hc]
          exact hmem c s hs
  | clearSession st chatId hr ih =>
    obtain ⟨hlen, hmem⟩ := ih
    refine ⟨hlen, ?_⟩
    intro c s hs
    simp only [smClearSession] at hs
    by_cases hc : c = chatId
    · rw [hc, assocFind_assocDelete_self] at hs
      exact absurd hs (by simp)
    · rw [assocFind_assocDelete_ne _ _ _ hc] at hs
      exact hmem c s hs
  | resume st fs home now cid chatId hr ih =>
    exact cacheHistoryInv_resume fs home now cid st chatId ih
  | resumeLast st fs home now chatId hr ih =>
    unfold smResumeLastSession
    cases hlast : getLastSession st.history chatId with
    | none => exact ih
    | some e => exact cacheHistoryInv_resume fs home now e.conversationId st chatId ih
  | setClaude st now csid chatId hr ih =>
    obtain ⟨hlen, hmem⟩ := ih
    unfold cacheHistoryInv
    unfold smSetClaudeSessionId
    cases hfind : assocFind st.cache chatId with
    | none => exact ⟨hlen, hmem⟩
    | some session =>
      dsimp only
      refine ⟨?_, ?_⟩
      · intro c
        rw [getChat_updateClaudeSessionId_length]
        exact hlen c
      · intro c s hs
        rw [getChat_updateClaudeSessionId_cids]
        by_cases hc : c = chatId
        · subst hc
          rw [assocFind_assocSet_self] at hs
          cases hs
          exact hmem c session hfind
        · rw [assocFind_assocSet_ne _ _ _ _ hc] at hs
          exact hmem c s hs

/-! ## find? and findIdx? bridges -/

theorem find?_exists_findIdx? {α : Type} (p : α → Bool) (l : List α) (a : α)
    (h : l.find? p = some a) : ∃ i, l.findIdx? p = some i ∧ l.get? i = some a := by
  induction l with
  | nil => simp at h
  | cons x tl ih =>
    by_cases hx : p x
    · rw [List.find?_cons_of_pos _ hx] at h
      cases h
      exact ⟨0, by rw [List.findIdx?_cons, if_pos hx], rfl⟩
    · rw [List.find?_cons_of_neg _ hx] at h
      obtain ⟨i, hidx, hget⟩ := ih h
      refine ⟨i + 1, ?_, hget⟩
      rw [List.findIdx?_cons, if_neg hx, List.findIdx?_succ, hidx]
      rfl

theorem find?_eq_get?_of_findIdx? {α : Type} (p : α → Bool) (l : List α) (i : Nat)
    (hidx : l.findIdx? p = some i) : l.find? p = l.get? i := by
  induction l generalizing i with
  | nil => simp at hidx
  | cons x tl ih =>
    rw [List.findIdx?_cons] at hidx
    by_cases hx : p x
    · rw [if_pos hx] at hidx
      cases hidx
      rw [List.find?_cons_of_pos _ hx]
      rfl
    · rw [if_neg hx, List.findIdx?_succ] at hidx
      cases hnext : tl.findIdx? p with
      | none => rw [hnext] at hidx; simp at hidx
      | some j =>
        rw [hnext] at hidx
        have hij : j + 1 = i := by simpa using hidx
        cases hij
        rw [List.find?_cons_of_neg _ hx]
        exact ih j hnext

theorem find?_set_of_findIdx? {α : Type} (l : List α) (p : α → Bool) (i : Nat) (a : α)
    (hidx : l.findIdx? p = some i) (hpa : p a = true) :
    (l.set i a).find? p = some a := by
  induction l generalizing i with
  | nil => simp at hidx
  | cons x tl ih =>
    rw [List.findIdx?_cons] at hidx
    by_cases hx : p x
    · rw [if_pos hx] at hidx
      cases hidx
      show (a :: tl).find? p = some a
      exact List.find?_cons_of_pos _ hpa
    · rw [if_neg hx, List.findIdx?_succ] at hidx
      cases hnext : tl.findIdx? p with
      | none => rw [hnext] at hidx; simp at hidx
      | some j =>
        rw [hnext] at hidx
        have hij : j + 1 = i := by simpa using hidx
        cases hij
        show (x :: tl.set j a).find? p = some a
        rw [List.find?_cons_of_neg _ hx]
        exact ih j hnext

theorem HReach_iterSaves (n : Nat) : HReach (iterSaves n) := by
  induction n with
  | zero => exact HReach.empty
  | succ n ih =>
    exact HReach.save (iterSaves n) "2025" (String.mk (List.replicate (n + 1) 'a'))
      "/p" "" none 1 ih

/-! ## Claim theorems -/

/-- C2: for every history state built exclusively through the public
operations, serializing with `save` (modelled by `saveFile`) and reloading
with `load` (modelled by `loadFile`) restores the history mapping exactly:
the same chats, and for each chat the same entries in the same order with
the same field values (an absent `claudeSessionId` stays absent, since the
entry is reproduced unchanged). -/
theorem claim2_save_load_roundtrip (st : HistoryState) (h : HReach st) :
    loadFile (saveFile st) = st :=
  loadFile_saveFile st (keys_nodup_of_HReach st h)

theorem claim2_save_load_roundtrip_witness :
    HReach (saveSession "t2" (saveSession "t1" [] 3 "c1" "/p" "hi" none) 12 "c2" "/q"
      "yo" (some "s")) ∧
    loadFile (saveFile (saveSession "t2" (saveSession "t1" [] 3 "c1" "/p" "hi" none)
        12 "c2" "/q" "yo" (some "s"))) =
      saveSession "t2" (saveSession "t1" [] 3 "c1" "/p" "hi" none) 12 "c2" "/q" "yo"
        (some "s") :=
  ⟨HReach.save _ "t2" "c2" "/q" "yo" (some "s") 12
      (HReach.save _ "t1" "c1" "/p" "hi" none 3 HReach.empty),
    claim2_save_load_roundtrip _
      (HReach.save _ "t2" "c2" "/q" "yo" (some "s") 12
        (HReach.save _ "t1" "c1" "/p" "hi" none 3 HReach.empty))⟩

/-- C4: `resolveWorkingDirectory` returns a stored path that exists on the
current filesystem unchanged; otherwise, in the fixed priority order
`/Users/` then `/home/`, if the stored path starts with the prefix and the
remainder after the username segment spliced onto the current home exists,
that remapped path is returned; otherwise the current home directory is
returned (the function is total — it never fails or throws). -/
theorem claim4_resolveWorkingDirectory (fs : List String) (home p : String) :
    (fs.contains p = true → resolveWorkingDirectory fs home p = p) ∧
    (fs.contains p = false → jsStartsWith p "/Users/" = true →
      fs.contains (remapSplice home "/Users/" p) = true →
      resolveWorkingDirectory fs home p = remapSplice home "/Users/" p) ∧
    (fs.contains p = false →
      (jsStartsWith p "/Users/" = false ∨
        fs.contains (remapSplice home "/Users/" p) = false) →
      jsStartsWith p "/home/" = true →
      fs.contains (remapSplice home "/home/" p) = true →
      resolveWorkingDirectory fs home p = remapSplice home "/home/" p) ∧
    (fs.contains p = false →
      (jsStartsWith p "/Users/" = false ∨
        fs.contains (remapSplice home "/Users/" p) = false) →
      (jsStartsWith p "/home/" = false ∨
        fs.contains (remapSplice home "/home/" p) = false) →
      resolveWorkingDirectory fs home p = home) := by
  have htr_some : ∀ pre, jsStartsWith p pre = true →
      fs.contains (remapSplice home pre p) = true →
      tryRemap fs home pre p = some (remapSplice home pre p) := by
    intro pre h1 h2
    unfold tryRemap
    rw [if_pos h1]
    show (if fs.contains (remapSplice home pre p) = true
      then some (remapSplice home pre p) else none) = _
    rw [if_pos h2]
  have htr_none : ∀ pre, (jsStartsWith p pre = false ∨
      fs.contains (remapSplice home pre p) = false) →
      tryRemap fs home pre p = none := by
    intro pre h
    unfold tryRemap
    rcases h with hu | hu
    · rw [if_neg (by simp [hu])]
    · by_cases hw : jsStartsWith p pre = true
      · rw [if_pos hw]
        show (if fs.contains (remapSplice home pre p) = true
          then some (remapSplice home pre p) else none) = none
        rw [if_neg (by rw [hu]; simp)]
      · rw [if_neg hw]
  refine ⟨?_, ?_, ?_, ?_⟩
  · intro h
    unfold resolveWorkingDirectory
    rw [if_pos h]
  · intro h h1 h2
    unfold resolveWorkingDirectory
    rw [if_neg (by rw [h]; simp), htr_some "/Users/" h1 h2]
  · intro h hu h1 h2
    unfold resolveWorkingDirectory
    rw [if_neg (by rw [h]; simp), htr_none "/Users/" hu, htr_some "/home/" h1 h2]
  · intro h hu hh
    unfold resolveWorkingDirectory
    rw [if_neg (by rw [h]; simp), htr_none "/Users/" hu, htr_none "/home/" hh]

theorem claim4_resolveWorkingDirectory_witness :
    ((["/home/bob/proj"] : List String).contains "/Users/alice/proj" = false ∧
      jsStartsWith "/Users/alice/proj" "/Users/" = true ∧
      (["/home/bob/proj"] : List String).contains
        (remapSplice "/home/bob" "/Users/" "/Users/alice/proj") = true) ∧
    resolveWorkingDirectory ["/home/bob/proj"] "/home/bob" "/Users/alice/proj" =
      remapSplice "/home/bob" "/Users/" "/Users/alice/proj" :=
  ⟨⟨by decide, by decide, by decide⟩,
    (claim4_resolveWorkingDirectory ["/home/bob/proj"] "/home/bob"
      "/Users/alice/proj").2.1 (by decide) (by decide) (by decide)⟩

/-- C5: for every chat and every sequence of public operations, the chat's
history never exceeds `MAX_HISTORY_PER_CHAT` (20) entries; and when
`saveSession` inserts a new conversation into a chat that is already at 20
entries, the result is the new entry at the head with the oldest entry (the
tail of the list) evicted. -/
theorem claim5_bounded_eviction (st : HistoryState) (h : HReach st) (c : Nat) :
    (getChat st c).length ≤ MAX_HISTORY_PER_CHAT ∧
    (∀ now cid pp pre csid,
      (getChat st c).length = MAX_HISTORY_PER_CHAT →
      (getChat st c).findIdx? (fun e => e.conversationId == cid) = none →
      getChat (saveSession now st c cid pp pre csid) c =
        mkEntry now cid pp pre csid none :: (getChat st c).dropLast) := by
  refine ⟨length_le_of_HReach st h c, ?_⟩
  intro now cid pp pre csid hfull hnew
  rw [getChat_saveSession_self, saveSessionChat_new now cid pp pre csid _ hnew]
  rw [if_pos (by rw [hfull]; decide)]
  rw [List.dropLast_eq_take, hfull]
  show (mkEntry now cid pp pre csid none :: getChat st c).take (19 + 1) =
    mkEntry now cid pp pre csid none :: (getChat st c).take (MAX_HISTORY_PER_CHAT - 1)
  rw [List.take_succ_cons]
  rfl

theorem claim5_bounded_eviction_witness :
    HReach (iterSaves 20) ∧
    (getChat (iterSaves 20) 1).length = MAX_HISTORY_PER_CHAT ∧
    (getChat (iterSaves 20) 1).findIdx? (fun e => e.conversationId == "b") = none ∧
    getChat (saveSession "t" (iterSaves 20) 1 "b" "/q" "" none) 1 =
      mkEntry "t" "b" "/q" "" none none :: (getChat (iterSaves 20) 1).dropLast :=
  ⟨HReach_iterSaves 20, by decide, by decide,
    (claim5_bounded_eviction (iterSaves 20) (HReach_iterSaves 20) 1).2 "t" "b" "/q" ""
      none (by decide) (by decide)⟩

/-- C6: resuming a conversation id that is not present in the chat's history
returns absent and mutates nothing: the cache and the entire history state
are returned unchanged. -/
theorem claim6_resume_unknown_no_mutation (fs : List String) (home now : String)
    (st : ManagerState) (chatId : Nat) (cid : String)
    (h : ∀ e ∈ getChat st.history chatId, e.conversationId ≠ cid) :
    smResumeSession fs home now st chatId cid = (none, st) := by
  have hfind : getSessionByConversationId st.history chatId cid = none := by
    unfold getSessionByConversationId
    rw [List.find?_eq_none]
    intro x hx
    simpa using h x hx
  unfold smResumeSession
  rw [hfind]

theorem claim6_resume_unknown_no_mutation_witness :
    (∀ e ∈ getChat (smCreateSession [] "/h" "t" "g" initialManagerState 7 "/p"
        none).2.history 7, e.conversationId ≠ "zzz") ∧
    smResumeSession [] "/h" "t2"
        (smCreateSession [] "/h" "t" "g" initialManagerState 7 "/p" none).2 7 "zzz" =
      (none, (smCreateSession [] "/h" "t" "g" initialManagerState 7 "/p" none).2) :=
  ⟨by decide,
    claim6_resume_unknown_no_mutation [] "/h" "t2"
      (smCreateSession [] "/h" "t" "g" initialManagerState 7 "/p" none).2 7 "zzz"
      (by decide)⟩

/-- C10: in any manager state reachable through the public SessionManager
operations from the empty state, every live session returned by
`getSession` has a history entry for its conversation in that chat — the
20-entry eviction never removes the entry of the currently live session. -/
theorem claim10_live_session_recorded (st : ManagerState) (h : SMReach st)
    (chatId : Nat) (s : Session) (hs : smGetSession st chatId = some s) :
    ∃ e ∈ getChat st.history chatId, e.conversationId = s.conversationId := by
  have hmem := (cacheHistoryInv_of_SMReach st h).2 chatId s hs
  rw [List.mem_map] at hmem
  obtain ⟨e, he, heq⟩ := hmem
  exact ⟨e, he, heq⟩

theorem claim10_live_session_recorded_witness :
    SMReach (smCreateSession [] "/h" "t" "g" initialManagerState 1 "/p" none).2 ∧
    smGetSession (smCreateSession [] "/h" "t" "g" initialManagerState 1 "/p" none).2 1 =
      some (Session.mk "g" none "/h" "t" "t") ∧
    ∃ e ∈ getChat (smCreateSession [] "/h" "t" "g" initialManagerState 1 "/p"
        none).2.history 1,
      e.conversationId = (Session.mk "g" none "/h" "t" "t").conversationId :=
  ⟨SMReach.create initialManagerState [] "/h" "t" "g" "/p" none 1 SMReach.init,
    by decide,
    claim10_live_session_recorded _
      (SMReach.create initialManagerState [] "/h" "t" "g" "/p" none 1 SMReach.init) 1 _
      (by decide)⟩

/-- C3: `saveSession` with a conversation id already present in the chat's
history (at index `i`, entry `e`, list within the 20-entry bound) replaces
that entry in place: the chat's history length does not grow, the entry at
`i` becomes the freshly built entry whose `createdAt` is the original
`e.createdAt` and whose `claudeSessionId` is `e`'s when the call omits one,
and every other position is untouched. With a conversation id that is not
present, the new entry is inserted at the head of the list. -/
theorem claim3_saveSession_upsert (now : String) (st : HistoryState) (chatId : Nat)
    (cid pp pre : String) (csid : Option String) :
    (∀ i e, (getChat st chatId).findIdx? (fun x => x.conversationId == cid) = some i →
      (getChat st chatId).get? i = some e →
      (getChat st chatId).length ≤ MAX_HISTORY_PER_CHAT →
      (getChat (saveSession now st chatId cid pp pre csid) chatId).length =
        (getChat st chatId).length ∧
      (getChat (saveSession now st chatId cid pp pre csid) chatId).get? i =
        some (mkEntry now cid pp pre csid (some e)) ∧
      (mkEntry now cid pp pre csid (some e)).createdAt = e.createdAt ∧
      (csid = none →
        (mkEntry now cid pp pre csid (some e)).claudeSessionId = e.claudeSessionId) ∧
      (∀ j, j ≠ i →
        (getChat (saveSession now st chatId cid pp pre csid) chatId).get? j =
          (getChat st chatId).get? j)) ∧
    ((getChat st chatId).findIdx? (fun x => x.conversationId == cid) = none →
      (getChat (saveSession now st chatId cid pp pre csid) chatId).head? =
        some (mkEntry now cid pp pre csid none)) := by
  constructor
  · intro i e hidx hget hlen
    rw [getChat_saveSession_self,
      saveSessionChat_found now cid pp pre csid _ i e hidx hget hlen]
    have hi : i < (getChat st chatId).length :=
      (List.findIdx?_eq_some_iff_getElem.mp hidx).1
    refine ⟨List.length_set _ _ _, ?_, rfl, ?_, ?_⟩
    · rw [List.get?_eq_getElem?, List.getElem?_set_self hi]
    · intro hnone
      subst hnone
      simp [mkEntry]
    · intro j hj
      rw [List.get?_set, if_neg (fun hij => hj hij.symm)]
  · intro hnone
    rw [getChat_saveSession_self, saveSessionChat_new now cid pp pre csid _ hnone]
    by_cases hl : (getChat st chatId).length + 1 > MAX_HISTORY_PER_CHAT
    · rw [if_pos hl]
      show ((mkEntry now cid pp pre csid none :: getChat st chatId).take (19 + 1)).head? = _
      rw [List.take_succ_cons]
      rfl
    · rw [if_neg hl]
      rfl

theorem claim3_saveSession_upsert_witness :
    ((getChat (saveSession "t1" [] 2 "c1" "/p" "m" none) 2).findIdx?
        (fun x => x.conversationId == "c1") = some 0 ∧
      (getChat (saveSession "t1" [] 2 "c1" "/p" "m" none) 2).get? 0 =
        some (mkEntry "t1" "c1" "/p" "m" none none) ∧
      (getChat (saveSession "t1" [] 2 "c1" "/p" "m" none) 2).length ≤
        MAX_HISTORY_PER_CHAT) ∧
    (getChat (saveSession "t2" (saveSession "t1" [] 2 "c1" "/p" "m" none) 2 "c1" "/q"
        "n" none) 2).length =
      (getChat (saveSession "t1" [] 2 "c1" "/p" "m" none) 2).length ∧
    (getChat (saveSession "t1" [] 2 "c1" "/p" "m" none) 2).findIdx?
        (fun x => x.conversationId == "c9") = none ∧
    (getChat (saveSession "t2" (saveSession "t1" [] 2 "c1" "/p" "m" none) 2 "c9" "/q"
        "n" none) 2).head? = some (mkEntry "t2" "c9" "/q" "n" none none) :=
  ⟨⟨by decide, by decide, by decide⟩,
    ((claim3_saveSession_upsert "t2" (saveSession "t1" [] 2 "c1" "/p" "m" none) 2 "c1"
        "/q" "n" none).1 0 (mkEntry "t1" "c1" "/p" "m" none none) (by decide)
        (by decide) (by decide)).1,
    by decide,
    (claim3_saveSession_upsert "t2" (saveSession "t1" [] 2 "c1" "/p" "m" none) 2 "c9"
        "/q" "n" none).2 (by decide)⟩

/-- C7: resuming a conversation id present in the chat's history returns a
live session whose `conversationId`, `claudeSessionId` and `createdAt` come
from the history entry, whose `lastActivity` is the fresh timestamp, and
whose working directory is the entry's stored path resolved through the
path resolver; the session is installed in the cache, and the resolved path
is written back into the chat's history entry for that conversation. -/
theorem claim7_resume_known (fs : List String) (home now : String) (st : ManagerState)
    (chatId : Nat) (cid : String) (e : SessionHistoryEntry)
    (hfind : getSessionByConversationId st.history chatId cid = some e)
    (hlen : (getChat st.history chatId).length ≤ MAX_HISTORY_PER_CHAT) :
    ∃ s, (smResumeSession fs home now st chatId cid).1 = some s ∧
      s.conversationId = e.conversationId ∧
      s.claudeSessionId = e.claudeSessionId ∧
      s.createdAt = e.createdAt ∧
      s.lastActivity = now ∧
      s.workingDirectory = resolveWorkingDirectory fs home e.projectPath ∧
      assocFind (smResumeSession fs home now st chatId cid).2.cache chatId = some s ∧
      ∃ e2, getSessionByConversationId
          (smResumeSession fs home now st chatId cid).2.history chatId cid = some e2 ∧
        e2.projectPath = resolveWorkingDirectory fs home e.projectPath := by
  have hfind2 : (getChat st.history chatId).find?
      (fun x => x.conversationId == cid) = some e := hfind
  obtain ⟨i, hidx, hget⟩ := find?_exists_findIdx? _ _ _ hfind2
  have hres : smResumeSession fs home now st chatId cid =
      (some (Session.mk e.conversationId e.claudeSessionId
          (resolveWorkingDirectory fs home e.projectPath) e.createdAt now),
        ManagerState.mk
          (assocSet st.cache chatId (Session.mk e.conversationId e.claudeSessionId
            (resolveWorkingDirectory fs home e.projectPath) e.createdAt now))
          (saveSession now st.history chatId cid
            (resolveWorkingDirectory fs home e.projectPath) e.lastMessagePreview
            e.claudeSessionId)) := by
    unfold smResumeSession
    rw [hfind]
  refine ⟨Session.mk e.conversationId e.claudeSessionId
      (resolveWorkingDirectory fs home e.projectPath) e.createdAt now,
    ?_, rfl, rfl, rfl, rfl, rfl, ?_, ?_⟩
  · rw [hres]
  · rw [hres]
    exact assocFind_assocSet_self _ _ _
  · refine ⟨mkEntry now cid (resolveWorkingDirectory fs home e.projectPath)
      e.lastMessagePreview e.claudeSessionId (some e), ?_, rfl⟩
    rw [hres]
    show (getChat (saveSession now st.history chatId cid
        (resolveWorkingDirectory fs home e.projectPath) e.lastMessagePreview
        e.claudeSessionId) chatId).find? (fun x => x.conversationId == cid) = _
    rw [getChat_saveSession_self,
      saveSessionChat_found now cid _ _ _ _ i e hidx hget hlen]
    exact find?_set_of_findIdx? _ _ i _ hidx (by simp [mkEntry])

theorem claim7_resume_known_witness :
    (getSessionByConversationId
        (smCreateSession [] "/h" "t" "g" initialManagerState 1 "/p" none).2.history 1
        "g" = some (mkEntry "t" "g" "/h" "" none none) ∧
      (getChat (smCreateSession [] "/h" "t" "g" initialManagerState 1 "/p"
        none).2.history 1).length ≤ MAX_HISTORY_PER_CHAT) ∧
    (∃ s, (smResumeSession [] "/h" "t2"
          (smCreateSession [] "/h" "t" "g" initialManagerState 1 "/p" none).2 1 "g").1 =
        some s ∧
      s.conversationId = (mkEntry "t" "g" "/h" "" none none).conversationId ∧
      s.claudeSessionId = (mkEntry "t" "g" "/h" "" none none).claudeSessionId ∧
      s.createdAt = (mkEntry "t" "g" "/h" "" none none).createdAt ∧
      s.lastActivity = "t2" ∧
      s.workingDirectory =
        resolveWorkingDirectory [] "/h" (mkEntry "t" "g" "/h" "" none none).projectPath ∧
      assocFind (smResumeSession [] "/h" "t2"
          (smCreateSession [] "/h" "t" "g" initialManagerState 1 "/p" none).2 1
          "g").2.cache 1 = some s ∧
      ∃ e2, getSessionByConversationId (smResumeSession [] "/h" "t2"
            (smCreateSession [] "/h" "t" "g" initialManagerState 1 "/p" none).2 1
            "g").2.history 1 "g" = some e2 ∧
        e2.projectPath =
          resolveWorkingDirectory [] "/h" (mkEntry "t" "g" "/h" "" none
            none).projectPath) :=
  ⟨⟨by decide, by decide⟩,
    claim7_resume_known [] "/h" "t2"
      (smCreateSession [] "/h" "t" "g" initialManagerState 1 "/p" none).2 1 "g"
      (mkEntry "t" "g" "/h" "" none none) (by decide) (by decide)⟩

/-- C8: with a live session for the chat, `setWorkingDirectory` stores the
directory on the session exactly as given (no path resolution), refreshes
`lastActivity`, re-installs the session in the cache and checkpoints it to
the history store; with no live session it is exactly `createSession` with
that directory (which therefore does resolve the directory through the path
resolver). -/
theorem claim8_setWorkingDirectory (fs : List String) (home now genId : String)
    (st : ManagerState) (chatId : Nat) (dir : String) :
    (∀ s, assocFind st.cache chatId = some s →
      (smSetWorkingDirectory fs home now genId st chatId dir).1 =
        Session.mk s.conversationId s.claudeSessionId dir s.createdAt now ∧
      assocFind (smSetWorkingDirectory fs home now genId st chatId dir).2.cache
          chatId =
        some (Session.mk s.conversationId s.claudeSessionId dir s.createdAt now) ∧
      (smSetWorkingDirectory fs home now genId st chatId dir).2.history =
        saveSession now st.history chatId s.conversationId dir "" s.claudeSessionId) ∧
    (assocFind st.cache chatId = none →
      smSetWorkingDirectory fs home now genId st chatId dir =
        smCreateSession fs home now genId st chatId dir none ∧
      (smSetWorkingDirectory fs home now genId st chatId dir).1.workingDirectory =
        resolveWorkingDirectory fs home dir) := by
  constructor
  · intro s hs
    unfold smSetWorkingDirectory
    rw [hs]
    exact ⟨rfl, assocFind_assocSet_self _ _ _, rfl⟩
  · intro hn
    unfold smSetWorkingDirectory
    rw [hn]
    exact ⟨rfl, rfl⟩

theorem claim8_setWorkingDirectory_witness :
    (assocFind (smCreateSession [] "/h" "t" "g" initialManagerState 4 "/p"
        none).2.cache 4 = some (Session.mk "g" none "/h" "t" "t") ∧
      (smSetWorkingDirectory [] "/h" "t2" "g2"
          (smCreateSession [] "/h" "t" "g" initialManagerState 4 "/p" none).2 4
          "/Users/x/d").1 =
        Session.mk "g" none "/Users/x/d" "t" "t2") ∧
    (assocFind initialManagerState.cache 9 = none ∧
      Session.workingDirectory
          (smSetWorkingDirectory [] "/h" "t" "g" initialManagerState 9 "/d").1 =
        resolveWorkingDirectory [] "/h" "/d") :=
  ⟨⟨by decide,
      ((claim8_setWorkingDirectory [] "/h" "t2" "g2"
          (smCreateSession [] "/h" "t" "g" initialManagerState 4 "/p" none).2 4
          "/Users/x/d").1 (Session.mk "g" none "/h" "t" "t") (by decide)).1⟩,
    ⟨rfl,
      ((claim8_setWorkingDirectory [] "/h" "t" "g" initialManagerState 9 "/d").2
        rfl).2⟩⟩

/-- C9: resuming a conversation that is not at the head of the chat's
history (index `i ≠ 0`) updates that entry in place: the list keeps its
length, every other position (the head in particular) is unchanged, and the
updated entry stays at index `i` — so a subsequent `resumeLastSession`
resumes the unchanged head conversation, which is not the conversation that
was just resumed. -/
theorem claim9_resume_non_head_in_place (fs : List String) (home now now2 : String)
    (st : ManagerState) (chatId : Nat) (cid : String) (i : Nat)
    (h0 : SessionHistoryEntry)
    (hidx : (getChat st.history chatId).findIdx?
      (fun x => x.conversationId == cid) = some i)
    (hi0 : i ≠ 0)
    (hhead : (getChat st.history chatId).head? = some h0)
    (hlen : (getChat st.history chatId).length ≤ MAX_HISTORY_PER_CHAT) :
    (getChat (smResumeSession fs home now st chatId cid).2.history chatId).length =
      (getChat st.history chatId).length ∧
    (∀ j, j ≠ i →
      (getChat (smResumeSession fs home now st chatId cid).2.history chatId).get? j =
        (getChat st.history chatId).get? j) ∧
    (((getChat (smResumeSession fs home now st chatId cid).2.history chatId).get?
        i).map (fun e => e.conversationId)) = some cid ∧
    (getChat (smResumeSession fs home now st chatId cid).2.history chatId).head? =
      some h0 ∧
    h0.conversationId ≠ cid ∧
    ((smResumeLastSession fs home now2 (smResumeSession fs home now st chatId cid).2
        chatId).1).map (fun s => s.conversationId) = some h0.conversationId := by
  obtain ⟨hi, hp, hmin⟩ := List.findIdx?_eq_some_iff_getElem.mp hidx
  have hget : (getChat st.history chatId).get? i =
      some ((getChat st.history chatId).get ⟨i, hi⟩) := List.get?_eq_get hi
  have hfind : getSessionByConversationId st.history chatId cid =
      some ((getChat st.history chatId).get ⟨i, hi⟩) := by
    show (getChat st.history chatId).find? (fun x => x.conversationId == cid) = _
    rw [find?_eq_get?_of_findIdx? _ _ i hidx]
    exact hget
  have hres : smResumeSession fs home now st chatId cid =
      (some (Session.mk ((getChat st.history chatId).get ⟨i, hi⟩).conversationId
          ((getChat st.history chatId).get ⟨i, hi⟩).claudeSessionId
          (resolveWorkingDirectory fs home
            ((getChat st.history chatId).get ⟨i, hi⟩).projectPath)
          ((getChat st.history chatId).get ⟨i, hi⟩).createdAt now),
        ManagerState.mk
          (assocSet st.cache chatId
            (Session.mk ((getChat st.history chatId).get ⟨i, hi⟩).conversationId
              ((getChat st.history chatId).get ⟨i, hi⟩).claudeSessionId
              (resolveWorkingDirectory fs home
                ((getChat st.history chatId).get ⟨i, hi⟩).projectPath)
              ((getChat st.history chatId).get ⟨i, hi⟩).createdAt now))
          (saveSession now st.history chatId cid
            (resolveWorkingDirectory fs home
              ((getChat st.history chatId).get ⟨i, hi⟩).projectPath)
            ((getChat st.history chatId).get ⟨i, hi⟩).lastMessagePreview
            ((getChat st.history chatId).get ⟨i, hi⟩).claudeSessionId)) := by
    unfold smResumeSession
    rw [hfind]
  have hch : getChat (smResumeSession fs home now st chatId cid).2.history chatId =
      (getChat st.history chatId).set i
        (mkEntry now cid
          (resolveWorkingDirectory fs home
            ((getChat st.history chatId).get ⟨i, hi⟩).projectPath)
          ((getChat st.history chatId).get ⟨i, hi⟩).lastMessagePreview
          ((getChat st.history chatId).get ⟨i, hi⟩).claudeSessionId
          (some ((getChat st.history chatId).get ⟨i, hi⟩))) := by
    rw [hres]
    show getChat (saveSession now st.history chatId cid
        (resolveWorkingDirectory fs home
          ((getChat st.history chatId).get ⟨i, hi⟩).projectPath)
        ((getChat st.history chatId).get ⟨i, hi⟩).lastMessagePreview
        ((getChat st.history chatId).get ⟨i, hi⟩).claudeSessionId) chatId = _
    rw [getChat_saveSession_self,
      saveSessionChat_found now cid _ _ _ _ i _ hidx hget hlen]
  have hgetElem0 : (getChat st.history chatId)[0] = h0 := by
    have hb : 0 < (getChat st.history chatId).length := Nat.pos_of_ne_zero (by
      intro hzero
      rw [List.length_eq_zero] at hzero
      rw [hzero] at hhead
      simp at hhead)
    have h00 : (getChat st.history chatId).get? 0 = some h0 := by
      cases hl : getChat st.history chatId with
      | nil => rw [hl] at hhead; simp at hhead
      | cons x tl => rw [hl] at hhead; simpa using hhead
    rw [List.get?_eq_getElem?, List.getElem?_eq_getElem hb] at h00
    exact Option.some.inj h00
  have hne : h0.conversationId ≠ cid := by
    intro heq
    have hnp := hmin 0 (Nat.pos_of_ne_zero hi0)
    apply hnp
    rw [hgetElem0, heq]
    simp
  have hheadafter :
      (getChat (smResumeSession fs home now st chatId cid).2.history chatId).head? =
        some h0 := by
    have h00 : (getChat (smResumeSession fs home now st chatId cid).2.history
        chatId).get? 0 = (getChat st.history chatId).get? 0 := by
      rw [hch, List.get?_set, if_neg hi0]
    have h01 : (getChat st.history chatId).get? 0 = some h0 := by
      cases hl : getChat st.history chatId with
      | nil => rw [hl] at hhead; simp at hhead
      | cons x tl => rw [hl] at hhead; simpa using hhead
    cases hl2 : getChat (smResumeSession fs home now st chatId cid).2.history
        chatId with
    | nil =>
      rw [hl2] at h00
      rw [h01] at h00
      simp at h00
    | cons y tl2 =>
      rw [hl2] at h00
      rw [h01] at h00
      simpa using h00
  refine ⟨?_, ?_, ?_, hheadafter, hne, ?_⟩
  · rw [hch, List.length_set]
  · intro j hj
    rw [hch, List.get?_set, if_neg (fun h => hj h.symm)]
  · rw [hch, List.get?_eq_getElem?, List.getElem?_set_self hi]
    rfl
  · obtain ⟨stp, hstp⟩ : ∃ x, (smResumeSession fs home now st chatId cid).2 = x :=
      ⟨_, rfl⟩
    rw [hstp]
    have hh2 : (getChat stp.history chatId).head? = some h0 := by
      rw [← hstp]
      exact hheadafter
    have hlast : getLastSession stp.history chatId = some h0 := by
      unfold getLastSession
      exact hh2
    have hfind3 : getSessionByConversationId stp.history chatId
        h0.conversationId = some h0 := by
      show (getChat stp.history chatId).find?
        (fun x => x.conversationId == h0.conversationId) = some h0
      cases hl2 : getChat stp.history chatId with
      | nil =>
        rw [hl2] at hh2
        simp at hh2
      | cons y tl2 =>
        have hy : y = h0 := by
          rw [hl2] at hh2
          simpa using hh2
        subst hy
        exact List.find?_cons_of_pos _ (by simp)
    unfold smResumeLastSession
    rw [hlast]
    show ((smResumeSession fs home now2 stp chatId h0.conversationId).1).map
      (fun s => s.conversationId) = some h0.conversationId
    have hres2 : smResumeSession fs home now2 stp chatId h0.conversationId =
        (some (Session.mk h0.conversationId h0.claudeSessionId
            (resolveWorkingDirectory fs home h0.projectPath) h0.createdAt now2),
          ManagerState.mk
            (assocSet stp.cache chatId
              (Session.mk h0.conversationId h0.claudeSessionId
                (resolveWorkingDirectory fs home h0.projectPath) h0.createdAt now2))
            (saveSession now2 stp.history chatId h0.conversationId
              (resolveWorkingDirectory fs home h0.projectPath)
              h0.lastMessagePreview h0.claudeSessionId)) := by
      unfold smResumeSession
      rw [hfind3]
    rw [hres2]
    rfl

theorem claim9_resume_non_head_in_place_witness :
    ((getChat (smCreateSession [] "/h" "t2" "g2"
          (smCreateSession [] "/h" "t1" "g1" initialManagerState 1 "/p" none).2 1
          "/q" none).2.history 1).findIdx?
        (fun x => x.conversationId == "g1") = some 1 ∧
      (getChat (smCreateSession [] "/h" "t2" "g2"
          (smCreateSession [] "/h" "t1" "g1" initialManagerState 1 "/p" none).2 1
          "/q" none).2.history 1).head? = some (mkEntry "t2" "g2" "/h" "" none none) ∧
      (getChat (smCreateSession [] "/h" "t2" "g2"
          (smCreateSession [] "/h" "t1" "g1" initialManagerState 1 "/p" none).2 1
          "/q" none).2.history 1).length ≤ MAX_HISTORY_PER_CHAT) ∧
    ((getChat (smResumeSession [] "/h" "t3"
          (smCreateSession [] "/h" "t2" "g2"
            (smCreateSession [] "/h" "t1" "g1" initialManagerState 1 "/p" none).2 1
            "/q" none).2 1 "g1").2.history 1).head? =
        some (mkEntry "t2" "g2" "/h" "" none none) ∧
      (mkEntry "t2" "g2" "/h" "" none none).conversationId ≠ "g1" ∧
      ((smResumeLastSession [] "/h" "t4"
          (smResumeSession [] "/h" "t3"
            (smCreateSession [] "/h" "t2" "g2"
              (smCreateSession [] "/h" "t1" "g1" initialManagerState 1 "/p" none).2 1
              "/q" none).2 1 "g1").2 1).1).map (fun s => s.conversationId) =
        some (mkEntry "t2" "g2" "/h" "" none none).conversationId) :=
  ⟨⟨by decide, by decide, by decide⟩, by
    have h := claim9_resume_non_head_in_place [] "/h" "t3" "t4"
      (smCreateSession [] "/h" "t2" "g2"
        (smCreateSession [] "/h" "t1" "g1" initialManagerState 1 "/p" none).2 1
        "/q" none).2 1 "g1" 1 (mkEntry "t2" "g2" "/h" "" none none)
      (by decide) (by decide) (by decide) (by decide)
    exact ⟨h.2.2.2.1, h.2.2.2.2.1, h.2.2.2.2.2⟩⟩

/-- C1: in every history state reached through the public operations with
non-decreasing timestamps, each chat's list is ordered most-recent-first
(creation stamps non-increasing from the head, reflecting that new entries
are inserted at the head and existing ones are updated in place), and
`getLastSession` returns the head of the list — an entry at least as recent
as every entry of the chat — or absent when the chat has no history. -/
theorem claim1_most_recent_first (t : String) (st : HistoryState)
    (h : HReachT t st) (c : Nat) :
    ((getChat st c).map (fun e => e.createdAt)).Pairwise (fun a b => b ≤ a) ∧
    getLastSession st c = (getChat st c).head? ∧
    (∀ e ∈ getChat st c, ∀ hd ∈ (getChat st c).head?,
      e.createdAt ≤ hd.createdAt) := by
  obtain ⟨hs, hb⟩ := sorted_createdLe_of_HReachT t st h
  refine ⟨hs c, rfl, ?_⟩
  intro e he hd hhd
  cases hl : getChat st c with
  | nil =>
    rw [hl] at he
    simp at he
  | cons x tl =>
    rw [hl] at he hhd
    have hx : x = hd := by simpa using hhd
    have hsorted := hs c
    rw [hl, List.map_cons, List.pairwise_cons] at hsorted
    rcases List.mem_cons.mp he with heq | hmem
    · subst heq
      rw [← hx]
    · have hmm : e.createdAt ∈ tl.map (fun e => e.createdAt) :=
        List.mem_map.mpr ⟨e, hmem, rfl⟩
      have hle := hsorted.1 _ hmm
      rw [← hx]
      exact hle

theorem claim1_most_recent_first_witness :
    HReachT "2025-06" (saveSession "2025-06"
      (saveSession "2025-06" [] 1 "a" "/p" "" none) 1 "b" "/q" "" none) ∧
    ((getChat (saveSession "2025-06" (saveSession "2025-06" [] 1 "a" "/p" "" none) 1
        "b" "/q" "" none) 1).map (fun e => e.createdAt)).Pairwise
      (fun a b => b ≤ a) ∧
    getLastSession (saveSession "2025-06" (saveSession "2025-06" [] 1 "a" "/p" ""
        none) 1 "b" "/q" "" none) 1 =
      (getChat (saveSession "2025-06" (saveSession "2025-06" [] 1 "a" "/p" "" none) 1
        "b" "/q" "" none) 1).head? ∧
    (∀ e ∈ getChat (saveSession "2025-06" (saveSession "2025-06" [] 1 "a" "/p" ""
        none) 1 "b" "/q" "" none) 1,
      ∀ hd ∈ (getChat (saveSession "2025-06" (saveSession "2025-06" [] 1 "a" "/p" ""
        none) 1 "b" "/q" "" none) 1).head?,
      e.createdAt ≤ hd.createdAt) := by
  have hr : HReachT "2025-06" (saveSession "2025-06"
      (saveSession "2025-06" [] 1 "a" "/p" "" none) 1 "b" "/q" "" none) :=
    HReachT.save _ "2025-06" "2025-06" "b" "/q" "" none 1
      (HReachT.save _ "2025-06" "2025-06" "a" "/p" "" none 1
        (HReachT.empty "2025-06") (le_refl _)) (le_refl _)
  have h := claim1_most_recent_first "2025-06" _ hr 1
  exact ⟨hr, h.1, h.2.1, h.2.2⟩

end Claudegram
